import Mathlib

/-
Verification of the task-store logic of `streamlit_app.py` (class `TodoApp`
and the filter/sort block of `main`), shallowly embedded in Lean.

Modelling conventions:
* A task dict created by the program always has the keys
  `id, task, completed, priority, category, created_at, due_date`, and gains
  `completed_at` once completed; it is modelled as the structure `Task`
  with `completed_at : Option String` (`none` = key absent).
* `datetime.now().strftime(...)` is an explicit `now : String` argument.
* Streamlit calls (`st.error`, `st.success`, ...) are modelled as result
  flags; `save_todos` as a `saved : Bool` flag.
* The JSON file is modelled at the value level by the inductive `Json`
  (the json library's print/parse round-trips such values exactly).
-/

namespace TodoApp

/-- Python whitespace characters stripped by `str.strip()` (ASCII range). -/
def isPySpace (c : Char) : Bool :=
  c = ' ' || c = '\t' || c = '\n' || c = '\x0d' || c = '\x0b' || c = '\x0c'

/-- `str.strip()`: drop leading and trailing whitespace. -/
def pyStrip (s : String) : String :=
  String.mk (((s.data.dropWhile isPySpace).reverse.dropWhile isPySpace).reverse)

/-- One todo record, the dict built at lines 55-63 of `streamlit_app.py`
(plus the `completed_at` key added by `complete_todo`). -/
structure Task where
  id : Int
  task : String
  completed : Bool
  priority : String
  category : String
  created_at : String
  due_date : Option String
  completed_at : Option String
deriving DecidableEq, Repr

/-- `max([todo.get('id', 0) for todo in todos], default=0)` (line 53). -/
def maxId (todos : List Task) : Int :=
  match todos.map Task.id with
  | [] => 0
  | x :: xs => xs.foldl max x

/-- Result of `add_todo`: new list, whether `save_todos` ran, whether
`st.error` was shown. -/
structure AddResult where
  todos : List Task
  saved : Bool
  errored : Bool
deriving DecidableEq, Repr

/-- `TodoApp.add_todo` (lines 46-67). -/
def addTodo (now : String) (task priority category : String)
    (todos : List Task) : AddResult :=
  if pyStrip task = "" then
    ⟨todos, false, true⟩
  else
    let newTodo : Task :=
      ⟨maxId todos + 1, pyStrip task, false, priority, category, now,
        none, none⟩
    ⟨todos ++ [newTodo], true, false⟩

/-- Result of a mutation: new list and whether `save_todos` ran. -/
structure OpResult where
  todos : List Task
  saved : Bool
deriving DecidableEq, Repr

/-- The `for`/`break` loop of `complete_todo`: update the first task whose
id matches, report whether one was found. -/
def completeList (now : String) (task_id : Int) : List Task → List Task × Bool
  | [] => ([], false)
  | t :: ts =>
    if t.id = task_id then
      ({ t with completed := true, completed_at := some now } :: ts, true)
    else
      let r := completeList now task_id ts
      (t :: r.1, r.2)

/-- `TodoApp.complete_todo` (lines 69-78). -/
def completeTodo (now : String) (task_id : Int) (todos : List Task) : OpResult :=
  let r := completeList now task_id todos
  ⟨r.1, r.2⟩

/-- `TodoApp.delete_todo` (lines 80-88): filter out the id, save only when
the length shrank. -/
def deleteTodo (task_id : Int) (todos : List Task) : OpResult :=
  let remaining := todos.filter (fun t => t.id != task_id)
  ⟨remaining, decide (remaining.length < todos.length)⟩

/-- The `for`/`break` loop of `update_priority`. -/
def updateList (priority : String) (task_id : Int) :
    List Task → List Task × Bool
  | [] => ([], false)
  | t :: ts =>
    if t.id = task_id then
      ({ t with priority := priority } :: ts, true)
    else
      let r := updateList priority task_id ts
      (t :: r.1, r.2)

/-- `TodoApp.update_priority` (lines 90-98). -/
def updatePriority (task_id : Int) (priority : String)
    (todos : List Task) : OpResult :=
  let r := updateList priority task_id todos
  ⟨r.1, r.2⟩

/-- Result of `clear_completed`: new list, whether saved, count reported. -/
structure ClearResult where
  todos : List Task
  saved : Bool
  cleared : Nat
deriving DecidableEq, Repr

/-- `TodoApp.clear_completed` (lines 100-110). -/
def clearCompleted (todos : List Task) : ClearResult :=
  let completed_count := (todos.filter (fun t => t.completed)).length
  if completed_count = 0 then
    ⟨todos, false, 0⟩
  else
    ⟨todos.filter (fun t => !t.completed), true, completed_count⟩

/-- The dict `{"High": 0, "Medium": 0, "Low": 0}` (line 118): its key set is
fixed, only the three values are ever incremented. -/
structure PriorityCounts where
  high : Nat
  medium : Nat
  low : Nat
deriving DecidableEq, Repr

/-- `priority_counts[p] += 1` (line 123): indexing with no default raises
`KeyError` (modelled as `none`) when `p` is not one of the three keys. -/
def pcIncr (pc : PriorityCounts) (p : String) : Option PriorityCounts :=
  if p = "High" then some { pc with high := pc.high + 1 }
  else if p = "Medium" then some { pc with medium := pc.medium + 1 }
  else if p = "Low" then some { pc with low := pc.low + 1 }
  else none

/-- `category_counts.get(c, 0)` on the insertion-ordered dict, modelled as an
association list: value at the first matching key, default 0. -/
def ccGet : List (String × Nat) → String → Nat
  | [], _ => 0
  | kv :: cc, c => if kv.1 = c then kv.2 else ccGet cc c

/-- `category_counts[c] = n`: update the key in place if it exists (keeping
its position, as Python dicts do), else append it. -/
def ccSet : List (String × Nat) → String → Nat → List (String × Nat)
  | [], c, n => [(c, n)]
  | kv :: cc, c, n => if kv.1 = c then (c, n) :: cc else kv :: ccSet cc c n

/-- `category_counts[c] = category_counts.get(c, 0) + 1` (line 125). -/
def ccIncr (cc : List (String × Nat)) (c : String) : List (String × Nat) :=
  ccSet cc c (ccGet cc c + 1)

/-- The `for todo in todos` loop of `get_stats` (lines 121-125); `none`
models the `KeyError` on a pending task whose priority is not a key of
`priority_counts`. -/
def statsFold : List Task → PriorityCounts → List (String × Nat) →
    Option (PriorityCounts × List (String × Nat))
  | [], pc, cc => some (pc, cc)
  | t :: ts, pc, cc =>
    if t.completed then
      statsFold ts pc cc
    else
      match pcIncr pc t.priority with
      | none => none
      | some pc2 => statsFold ts pc2 (ccIncr cc t.category)

/-- The dict returned by `get_stats` (lines 127-133). -/
structure Stats where
  total : Nat
  completed : Nat
  pending : Nat
  priority_counts : PriorityCounts
  category_counts : List (String × Nat)
deriving DecidableEq, Repr

/-- `TodoApp.get_stats` (lines 112-133). -/
def getStats (todos : List Task) : Option Stats :=
  let total := todos.length
  let completed := (todos.filter (fun t => t.completed)).length
  let pending := total - completed
  match statsFold todos ⟨0, 0, 0⟩ [] with
  | none => none
  | some (pc, cc) => some ⟨total, completed, pending, pc, cc⟩

/-- The three `continue` conditions of the filter loop (lines 195-202),
negated: a task is kept iff it passes all three filters. -/
def passesFilters (show_completed : Bool)
    (filter_priority filter_category : List String) (t : Task) : Bool :=
  !(!show_completed && t.completed) &&
    filter_priority.contains t.priority &&
    filter_category.contains t.category

/-- `priority_order.get(x["priority"], 1)` with
`priority_order = {"High": 0, "Medium": 1, "Low": 2}` (line 205). -/
def priorityRank (p : String) : Nat :=
  if p = "High" then 0 else if p = "Medium" then 1
  else if p = "Low" then 2 else 1

/-- The sort key `(x["completed"], rank)` (line 206), packed into one `Nat`
(`False < True` in Python and the rank is at most 2, so lexicographic order
on the pair coincides with order on `3·completed + rank`). -/
def sortKey (t : Task) : Nat :=
  (if t.completed then 3 else 0) + priorityRank t.priority

/-- Insert `a` in front of the first element with a key not below `a`'s;
this is the stable-insert step of a stable sort. -/
def insertByKey (a : Task) : List Task → List Task
  | [] => [a]
  | b :: l =>
    if sortKey a ≤ sortKey b then a :: b :: l else b :: insertByKey a l

/-- `filtered_todos.sort(key=...)` (line 206): Python's `list.sort` is a
stable sort, modelled as stable insertion sort on `sortKey`. -/
def sortByKey : List Task → List Task
  | [] => []
  | a :: l => insertByKey a (sortByKey l)

/-- The filtered, sorted view computed in `main` (lines 194-206). -/
def filteredSorted (show_completed : Bool)
    (filter_priority filter_category : List String)
    (todos : List Task) : List Task :=
  sortByKey (todos.filter (passesFilters show_completed filter_priority filter_category))

/-- JSON values, for the persistence layer. -/
inductive Json where
  | null
  | bool (b : Bool)
  | int (n : Int)
  | str (s : String)
  | arr (xs : List Json)
  | obj (fields : List (String × Json))

/-- An `Option String` field serialized by `json.dump` (`None` → `null`). -/
def encodeOptStr : Option String → Json
  | none => Json.null
  | some s => Json.str s

/-- `json.dump` of one task dict: keys in insertion order, `completed_at`
present only when the task has been completed. -/
def encodeTask (t : Task) : Json :=
  Json.obj
    ([("id", Json.int t.id), ("task", Json.str t.task),
      ("completed", Json.bool t.completed),
      ("priority", Json.str t.priority),
      ("category", Json.str t.category),
      ("created_at", Json.str t.created_at),
      ("due_date", encodeOptStr t.due_date)] ++
      (match t.completed_at with
       | none => []
       | some s => [("completed_at", Json.str s)]))

/-- `json.dump` of the whole todo list. -/
def encodeTodos (todos : List Task) : Json :=
  Json.arr (todos.map encodeTask)

/-- Dict lookup on a JSON object. -/
def jGet (j : Json) (k : String) : Option Json :=
  match j with
  | Json.obj fields => (fields.find? (fun kv => kv.1 == k)).map (fun kv => kv.2)
  | _ => none

/-- Read one task record back from its JSON object. -/
def decodeTask (j : Json) : Option Task :=
  match jGet j "id", jGet j "task", jGet j "completed", jGet j "priority",
      jGet j "category", jGet j "created_at" with
  | some (Json.int i), some (Json.str d), some (Json.bool cb),
      some (Json.str p), some (Json.str c), some (Json.str ca) =>
    let dd : Option String :=
      match jGet j "due_date" with
      | some (Json.str s) => some s
      | _ => none
    let cmpl : Option String :=
      match jGet j "completed_at" with
      | some (Json.str s) => some s
      | _ => none
    some ⟨i, d, cb, p, c, ca, dd, cmpl⟩
  | _, _, _, _, _, _ => none

/-- Read a task list back from a JSON array. -/
def decodeTasks : List Json → Option (List Task)
  | [] => some []
  | j :: js =>
    match decodeTask j, decodeTasks js with
    | some t, some ts => some (t :: ts)
    | _, _ => none

/-- Read the whole collection back from the persisted JSON value. -/
def decodeTodos (j : Json) : Option (List Task) :=
  match j with
  | Json.arr xs => decodeTasks xs
  | _ => none

/-- State of the backing file: absent; present with bytes that are not
valid UTF-8 text (reading them inside `json.load` raises
`UnicodeDecodeError`, which is NOT a subclass of either exception caught
at line 34); present with text that fails JSON parsing or whose read
fails with `IOError` (the two exception classes the `except` clause does
catch); or present and holding a JSON value. -/
inductive FileState where
  | missing
  | undecodable
  | malformed
  | stored (j : Json)

/-- `TodoApp.save_todos` (lines 38-44): overwrite the file with the
serialized collection. -/
def saveTodos (todos : List Task) : FileState :=
  FileState.stored (encodeTodos todos)

/-- `TodoApp.load_todos` (lines 28-36): returns the loaded JSON value and
whether `st.warning` was shown, or `none` when an exception escapes the
function. Missing file → empty list; `json.JSONDecodeError` / `IOError` →
warning and empty list (the caught cases); non-UTF-8 bytes →
`UnicodeDecodeError` propagates uncaught (`none`). -/
def loadTodos : FileState → Option (Json × Bool)
  | FileState.missing => some (Json.arr [], false)
  | FileState.undecodable => none
  | FileState.malformed => some (Json.arr [], true)
  | FileState.stored j => some (j, false)

/-! ### Sample tasks used by witnesses and counterexamples -/

/-- A pending sample task. -/
def sampleTask : Task :=
  ⟨1, "a", false, "High", "Work", "2024-01-01 00:00:00", none, none⟩

/-- Another pending sample task, description `b`, id 2. -/
def sampleTask2 : Task :=
  ⟨2, "b", false, "Medium", "Personal", "2024-01-01 00:00:01", none, none⟩

/-! ### `maxId` bounds -/

theorem le_foldl_max (l : List Int) (a : Int) : a ≤ l.foldl max a := by
  induction l generalizing a with
  | nil => exact le_refl a
  | cons x xs ih => exact le_trans (le_max_left a x) (ih (max a x))

theorem mem_le_foldl_max (l : List Int) (a b : Int) : b ∈ l → b ≤ l.foldl max a := by
  induction l generalizing a with
  | nil => intro hb; cases hb
  | cons x xs ih =>
    intro hb
    rcases List.mem_cons.mp hb with h | h
    · subst h
      exact le_trans (le_max_right a b) (le_foldl_max xs (max a b))
    · exact ih (max a x) h

theorem id_le_maxId (todos : List Task) (t : Task) (ht : t ∈ todos) :
    t.id ≤ maxId todos := by
  cases todos with
  | nil => cases ht
  | cons u ts =>
    show t.id ≤ (ts.map Task.id).foldl max u.id
    rcases List.mem_cons.mp ht with h | h
    · subst h; exact le_foldl_max _ _
    · exact mem_le_foldl_max _ _ _ (List.mem_map_of_mem Task.id h)

/-- C1 (amended): a successful add appends one task whose id is
`maxId todos + 1`, which is strictly greater than the id of every task
currently in the store — so the new id is unique among current ids, and in
the spec's example (ids 1,2 present, id 1 deleted) the next id is 3. -/
theorem C1_add_id_gt_existing (now task priority category : String)
    (todos : List Task) (h : pyStrip task ≠ "") :
    (addTodo now task priority category todos).todos =
      todos ++ [⟨maxId todos + 1, pyStrip task, false, priority, category,
        now, none, none⟩] ∧
    ∀ t ∈ todos, t.id < maxId todos + 1 := by
  constructor
  · simp [addTodo, h]
  · intro t ht
    exact Int.lt_add_one_iff.mpr (id_le_maxId todos t ht)

/-- C1 witness: the amended theorem applied to a one-task store. -/
theorem C1_add_id_gt_existing_witness :
    pyStrip "buy milk" ≠ "" ∧
    ((addTodo "2024-01-02 00:00:00" "buy milk" "High" "Work"
        [sampleTask]).todos =
      [sampleTask] ++ [⟨maxId [sampleTask] + 1, pyStrip "buy milk", false,
        "High", "Work", "2024-01-02 00:00:00", none, none⟩] ∧
    ∀ t ∈ [sampleTask], t.id < maxId [sampleTask] + 1) :=
  ⟨by decide,
    C1_add_id_gt_existing "2024-01-02 00:00:00" "buy milk" "High" "Work"
      [sampleTask] (by decide)⟩

/-- C1 counterexample: ids ARE reused after the maximal id is deleted.
Adding twice assigns ids 1 and 2; after deleting id 2, the next add assigns
id 2 again, contradicting "an id is never reused after its task is
deleted" / "strictly greater than every id ever assigned before". -/
theorem C1_counterexample :
    ((addTodo "t2" "b" "Medium" "Personal"
        (addTodo "t1" "a" "Medium" "Personal" []).todos).todos.map Task.id
      = [1, 2]) ∧
    ((addTodo "t4" "c" "Medium" "Personal"
        (deleteTodo 2 (addTodo "t2" "b" "Medium" "Personal"
          (addTodo "t1" "a" "Medium" "Personal" []).todos).todos).todos).todos.map
        Task.id = [1, 2]) := by
  decide

/-! ### `complete_todo` characterization -/

theorem completeList_found (now : String) (task_id : Int) (todos : List Task)
    (h : ∃ t ∈ todos, t.id = task_id) :
    ∃ pre t post, todos = pre ++ t :: post ∧ (∀ u ∈ pre, u.id ≠ task_id) ∧
      t.id = task_id ∧
      completeList now task_id todos =
        (pre ++ { t with completed := true, completed_at := some now } :: post,
          true) := by
  induction todos with
  | nil =>
    rcases h with ⟨t, ht, _⟩
    cases ht
  | cons a ts ih =>
    by_cases ha : a.id = task_id
    · refine ⟨[], a, ts, rfl, by simp, ha, ?_⟩
      simp [completeList, ha]
    · rcases h with ⟨t, ht, hid⟩
      rcases List.mem_cons.mp ht with rfl | ht2
      · exact absurd hid ha
      · rcases ih ⟨t, ht2, hid⟩ with ⟨pre, u, post, heq, hpre, hu, hcl⟩
        refine ⟨a :: pre, u, post, by rw [heq]; rfl, ?_, hu, ?_⟩
        · intro v hv
          rcases List.mem_cons.mp hv with rfl | hv2
          · exact ha
          · exact hpre v hv2
        · simp [completeList, ha, hcl]

theorem completeList_append (now : String) (task_id : Int)
    (pre post : List Task) (t : Task)
    (hpre : ∀ u ∈ pre, u.id ≠ task_id) (ht : t.id = task_id) :
    completeList now task_id (pre ++ t :: post) =
      (pre ++ { t with completed := true, completed_at := some now } :: post,
        true) := by
  induction pre with
  | nil => simp [completeList, ht]
  | cons a pre ih =>
    have ha := hpre a (List.mem_cons_self a pre)
    simp [completeList, ha,
      ih (fun u hu => hpre u (List.mem_cons_of_mem a hu))]

/-- C2 (amended): when a task with the given id exists, `complete_todo`
rewrites the first such task to `completed = true` with
`completed_at = some now` (the call's timestamp), leaves every other task
and field unchanged, and saves. A second call at the SAME timestamp is a
no-op on the store, but a second call at a different timestamp re-stamps
`completed_at` — the record is not unchanged in general. -/
theorem C2_complete_sets_and_restamps (now : String) (task_id : Int)
    (todos : List Task) (h : ∃ t ∈ todos, t.id = task_id) :
    (∃ pre t post,
        todos = pre ++ t :: post ∧
        (∀ u ∈ pre, u.id ≠ task_id) ∧ t.id = task_id ∧
        (completeTodo now task_id todos).todos =
          pre ++ { t with completed := true, completed_at := some now } :: post) ∧
    (completeTodo now task_id todos).saved = true ∧
    completeTodo now task_id (completeTodo now task_id todos).todos =
      completeTodo now task_id todos := by
  obtain ⟨pre, t, post, heq, hpre, ht, hcl⟩ :=
    completeList_found now task_id todos h
  have h2 : (completeTodo now task_id todos).todos =
      pre ++ { t with completed := true, completed_at := some now } :: post := by
    simp [completeTodo, hcl]
  refine ⟨⟨pre, t, post, heq, hpre, ht, h2⟩, by simp [completeTodo, hcl], ?_⟩
  rw [h2]
  have h3 := completeList_append now task_id pre post
    { t with completed := true, completed_at := some now } hpre ht
  simp [completeTodo, hcl, h3]

/-- C2 witness: the amended theorem applied to a one-task store. -/
theorem C2_complete_sets_and_restamps_witness :
    (∃ t ∈ [sampleTask], t.id = 1) ∧
    ((∃ pre t post,
        [sampleTask] = pre ++ t :: post ∧
        (∀ u ∈ pre, u.id ≠ 1) ∧ t.id = 1 ∧
        (completeTodo "t1" 1 [sampleTask]).todos =
          pre ++ { t with completed := true, completed_at := some "t1" } :: post) ∧
    (completeTodo "t1" 1 [sampleTask]).saved = true ∧
    completeTodo "t1" 1 (completeTodo "t1" 1 [sampleTask]).todos =
      completeTodo "t1" 1 [sampleTask]) :=
  ⟨⟨sampleTask, List.mem_cons_self _ _, rfl⟩,
    C2_complete_sets_and_restamps "t1" 1 [sampleTask]
      ⟨sampleTask, List.mem_cons_self _ _, rfl⟩⟩

/-- C2 counterexample: completing an already-completed task at a later
timestamp changes the task record — `completed_at` is re-stamped — so the
second call is not observably a no-op. -/
theorem C2_counterexample :
    (completeTodo "t1" 1 [sampleTask]).todos.map Task.completed_at
      = [some "t1"] ∧
    (completeTodo "t2" 1 (completeTodo "t1" 1 [sampleTask]).todos).todos ≠
      (completeTodo "t1" 1 [sampleTask]).todos ∧
    (completeTodo "t2" 1 (completeTodo "t1" 1 [sampleTask]).todos).todos.map
      Task.completed_at = [some "t2"] := by
  decide

/-! ### `add_todo` validation -/

/-- C4: with a description that is empty after stripping, `add_todo` shows a
validation error, leaves the collection unchanged and does not save; with a
non-blank description it appends exactly one new task and saves. -/
theorem C4_add_validation (now task priority category : String)
    (todos : List Task) :
    (pyStrip task = "" →
      addTodo now task priority category todos = ⟨todos, false, true⟩) ∧
    (pyStrip task ≠ "" →
      (addTodo now task priority category todos).todos =
        todos ++ [⟨maxId todos + 1, pyStrip task, false, priority, category,
          now, none, none⟩] ∧
      (addTodo now task priority category todos).todos.length =
        todos.length + 1 ∧
      (addTodo now task priority category todos).saved = true ∧
      (addTodo now task priority category todos).errored = false) := by
  constructor
  · intro h
    simp [addTodo, h]
  · intro h
    refine ⟨?_, ?_, ?_, ?_⟩ <;> simp [addTodo, h]

/-- C4 witness: a whitespace-only and a non-blank description. -/
theorem C4_add_validation_witness :
    (pyStrip "   " = "" ∧
      addTodo "t1" "   " "High" "Work" [] = ⟨[], false, true⟩) ∧
    (pyStrip " a " ≠ "" ∧
      (addTodo "t1" " a " "High" "Work" []).todos =
        [] ++ [⟨maxId [] + 1, pyStrip " a ", false, "High", "Work", "t1",
          none, none⟩]) :=
  ⟨⟨by decide, (C4_add_validation "t1" "   " "High" "Work" []).1 (by decide)⟩,
   ⟨by decide,
     ((C4_add_validation "t1" " a " "High" "Work" []).2 (by decide)).1⟩⟩

/-! ### Missing-id operations are silent no-ops -/

theorem completeList_not_found (now : String) (task_id : Int)
    (todos : List Task) (h : ∀ t ∈ todos, t.id ≠ task_id) :
    completeList now task_id todos = (todos, false) := by
  induction todos with
  | nil => rfl
  | cons a ts ih =>
    have ha := h a (List.mem_cons_self a ts)
    simp [completeList, ha,
      ih (fun t ht => h t (List.mem_cons_of_mem a ht))]

theorem updateList_not_found (priority : String) (task_id : Int)
    (todos : List Task) (h : ∀ t ∈ todos, t.id ≠ task_id) :
    updateList priority task_id todos = (todos, false) := by
  induction todos with
  | nil => rfl
  | cons a ts ih =>
    have ha := h a (List.mem_cons_self a ts)
    simp [updateList, ha,
      ih (fun t ht => h t (List.mem_cons_of_mem a ht))]

/-- C5: when no task has the given id, `complete_todo`, `delete_todo` and
`update_priority` each return the collection unchanged without saving (and,
being total functions showing no error flag, raise nothing). -/
theorem C5_missing_id_noop (now priority : String) (task_id : Int)
    (todos : List Task) (h : ∀ t ∈ todos, t.id ≠ task_id) :
    completeTodo now task_id todos = ⟨todos, false⟩ ∧
    deleteTodo task_id todos = ⟨todos, false⟩ ∧
    updatePriority task_id priority todos = ⟨todos, false⟩ := by
  refine ⟨?_, ?_, ?_⟩
  · simp [completeTodo, completeList_not_found now task_id todos h]
  · have hf : todos.filter (fun t => t.id != task_id) = todos :=
      List.filter_eq_self.mpr (fun a ha => by simpa using h a ha)
    have hl : ¬ (todos.length < todos.length) := lt_irrefl _
    simp [deleteTodo, hf, hl]
  · simp [updatePriority, updateList_not_found priority task_id todos h]

/-- C5 witness: operating with id 99 on a store holding only id 1. -/
theorem C5_missing_id_noop_witness :
    (∀ t ∈ [sampleTask], t.id ≠ 99) ∧
    (completeTodo "t1" 99 [sampleTask] = ⟨[sampleTask], false⟩ ∧
     deleteTodo 99 [sampleTask] = ⟨[sampleTask], false⟩ ∧
     updatePriority 99 "Low" [sampleTask] = ⟨[sampleTask], false⟩) :=
  ⟨by decide, C5_missing_id_noop "t1" "Low" 99 [sampleTask] (by decide)⟩

/-! ### The `completed_at` iff `completed` invariant -/

theorem mem_completeList (now : String) (task_id : Int) (todos : List Task)
    (t : Task) (ht : t ∈ (completeList now task_id todos).1) :
    t ∈ todos ∨
      ∃ u ∈ todos, t = { u with completed := true, completed_at := some now } := by
  induction todos with
  | nil => simp [completeList] at ht
  | cons a ts ih =>
    by_cases ha : a.id = task_id
    · simp [completeList, ha] at ht
      rcases ht with rfl | ht
      · exact Or.inr ⟨a, List.mem_cons_self _ _, by rw [ha]⟩
      · exact Or.inl (List.mem_cons_of_mem a ht)
    · simp [completeList, ha] at ht
      rcases ht with rfl | ht
      · exact Or.inl (List.mem_cons_self _ _)
      · rcases ih ht with h2 | ⟨u, hu, rfl⟩
        · exact Or.inl (List.mem_cons_of_mem a h2)
        · exact Or.inr ⟨u, List.mem_cons_of_mem a hu, rfl⟩

theorem mem_updateList (priority : String) (task_id : Int) (todos : List Task)
    (t : Task) (ht : t ∈ (updateList priority task_id todos).1) :
    t ∈ todos ∨ ∃ u ∈ todos, t = { u with priority := priority } := by
  induction todos with
  | nil => simp [updateList] at ht
  | cons a ts ih =>
    by_cases ha : a.id = task_id
    · simp [updateList, ha] at ht
      rcases ht with rfl | ht
      · exact Or.inr ⟨a, List.mem_cons_self _ _, by rw [ha]⟩
      · exact Or.inl (List.mem_cons_of_mem a ht)
    · simp [updateList, ha] at ht
      rcases ht with rfl | ht
      · exact Or.inl (List.mem_cons_self _ _)
      · rcases ih ht with h2 | ⟨u, hu, rfl⟩
        · exact Or.inl (List.mem_cons_of_mem a h2)
        · exact Or.inr ⟨u, List.mem_cons_of_mem a hu, rfl⟩

theorem updateList_completion_unchanged (priority : String) (task_id : Int)
    (todos : List Task) :
    (updateList priority task_id todos).1.map
        (fun t => (t.completed, t.completed_at)) =
      todos.map (fun t => (t.completed, t.completed_at)) := by
  induction todos with
  | nil => rfl
  | cons a ts ih =>
    by_cases ha : a.id = task_id
    · simp [updateList, ha]
    · simp [updateList, ha, ih]

/-- C9: every operation preserves "`completed_at` present iff `completed`";
`add_todo` creates its task with `completed = false` and no `completed_at`,
and `update_priority` leaves every task's completion state and
`completed_at` untouched (only `complete_todo` stamps it, together with
setting `completed = true`). -/
theorem C9_completed_at_iff_completed (now task priority category : String)
    (task_id : Int) (todos : List Task)
    (h : ∀ t ∈ todos, t.completed_at.isSome = t.completed) :
    (∀ t ∈ (addTodo now task priority category todos).todos,
       t.completed_at.isSome = t.completed) ∧
    (∀ t ∈ (completeTodo now task_id todos).todos,
       t.completed_at.isSome = t.completed) ∧
    (∀ t ∈ (deleteTodo task_id todos).todos,
       t.completed_at.isSome = t.completed) ∧
    (∀ t ∈ (updatePriority task_id priority todos).todos,
       t.completed_at.isSome = t.completed) ∧
    (∀ t ∈ (clearCompleted todos).todos,
       t.completed_at.isSome = t.completed) ∧
    (pyStrip task ≠ "" →
      (addTodo now task priority category todos).todos =
        todos ++ [⟨maxId todos + 1, pyStrip task, false, priority, category,
          now, none, none⟩]) ∧
    ((updatePriority task_id priority todos).todos.map
        (fun t => (t.completed, t.completed_at)) =
      todos.map (fun t => (t.completed, t.completed_at))) := by
  refine ⟨?_, ?_, ?_, ?_, ?_, ?_, ?_⟩
  · intro t ht
    by_cases hs : pyStrip task = ""
    · simp [addTodo, hs] at ht
      exact h t ht
    · simp [addTodo, hs] at ht
      rcases ht with ht | ht
      · exact h t ht
      · subst ht; rfl
  · intro t ht
    rcases mem_completeList now task_id todos t ht with h2 | ⟨u, _, rfl⟩
    · exact h t h2
    · rfl
  · intro t ht
    exact h t (List.mem_filter.mp ht).1
  · intro t ht
    rcases mem_updateList priority task_id todos t ht with h2 | ⟨u, hu, rfl⟩
    · exact h t h2
    · exact h u hu
  · intro t ht
    by_cases hc : (todos.filter (fun u => u.completed)).length = 0
    · simp [clearCompleted, hc] at ht
      exact h t ht
    · simp [clearCompleted, hc] at ht
      exact h t ht.1
  · intro hs
    simp [addTodo, hs]
  · exact updateList_completion_unchanged priority task_id todos

/-- C9 witness: the invariant theorem applied to a two-task store. -/
theorem C9_completed_at_iff_completed_witness :
    (∀ t ∈ [sampleTask, sampleTask2], t.completed_at.isSome = t.completed) ∧
    ((∀ t ∈ (addTodo "t1" " x " "Low" "Other" [sampleTask, sampleTask2]).todos,
       t.completed_at.isSome = t.completed) ∧
    (∀ t ∈ (completeTodo "t1" 1 [sampleTask, sampleTask2]).todos,
       t.completed_at.isSome = t.completed) ∧
    (∀ t ∈ (deleteTodo 1 [sampleTask, sampleTask2]).todos,
       t.completed_at.isSome = t.completed) ∧
    (∀ t ∈ (updatePriority 1 "Low" [sampleTask, sampleTask2]).todos,
       t.completed_at.isSome = t.completed) ∧
    (∀ t ∈ (clearCompleted [sampleTask, sampleTask2]).todos,
       t.completed_at.isSome = t.completed) ∧
    (pyStrip " x " ≠ "" →
      (addTodo "t1" " x " "Low" "Other" [sampleTask, sampleTask2]).todos =
        [sampleTask, sampleTask2] ++
          [⟨maxId [sampleTask, sampleTask2] + 1, pyStrip " x ", false, "Low",
            "Other", "t1", none, none⟩]) ∧
    ((updatePriority 1 "Low" [sampleTask, sampleTask2]).todos.map
        (fun t => (t.completed, t.completed_at)) =
      [sampleTask, sampleTask2].map (fun t => (t.completed, t.completed_at)))) :=
  ⟨by decide,
    C9_completed_at_iff_completed "t1" " x " "Low" "Other" 1
      [sampleTask, sampleTask2] (by decide)⟩

/-! ### Stable sort: permutation, sortedness, stability -/

theorem insertByKey_perm (a : Task) (l : List Task) :
    (insertByKey a l).Perm (a :: l) := by
  induction l with
  | nil => exact List.Perm.refl _
  | cons b m ih =>
    by_cases hab : sortKey a ≤ sortKey b
    · simp only [insertByKey, if_pos hab]
      exact List.Perm.refl _
    · simp only [insertByKey, if_neg hab]
      exact (ih.cons b).trans (List.Perm.swap a b m)

theorem sortByKey_perm (l : List Task) : (sortByKey l).Perm l := by
  induction l with
  | nil => exact List.Perm.refl _
  | cons a m ih =>
    simp only [sortByKey]
    exact (insertByKey_perm a (sortByKey m)).trans (ih.cons a)

theorem insertByKey_pairwise (a : Task) (l : List Task)
    (h : l.Pairwise (fun x y => sortKey x ≤ sortKey y)) :
    (insertByKey a l).Pairwise (fun x y => sortKey x ≤ sortKey y) := by
  induction l with
  | nil => simp [insertByKey]
  | cons b m ih =>
    rcases List.pairwise_cons.mp h with ⟨hb, hm⟩
    by_cases hab : sortKey a ≤ sortKey b
    · simp only [insertByKey, if_pos hab]
      refine List.pairwise_cons.mpr ⟨?_, h⟩
      intro y hy
      rcases List.mem_cons.mp hy with rfl | hy2
      · exact hab
      · exact le_trans hab (hb y hy2)
    · simp only [insertByKey, if_neg hab]
      refine List.pairwise_cons.mpr ⟨?_, ih hm⟩
      intro y hy
      rcases List.mem_cons.mp ((insertByKey_perm a m).mem_iff.mp hy) with rfl | hy4
      · exact le_of_not_le hab
      · exact hb y hy4

theorem sortByKey_pairwise (l : List Task) :
    (sortByKey l).Pairwise (fun x y => sortKey x ≤ sortKey y) := by
  induction l with
  | nil => simp [sortByKey]
  | cons a m ih =>
    simp only [sortByKey]
    exact insertByKey_pairwise a (sortByKey m) ih

theorem insertByKey_filter_eq (a : Task) (l : List Task) (k : Nat)
    (ha : sortKey a = k) :
    (insertByKey a l).filter (fun t => sortKey t == k) =
      a :: l.filter (fun t => sortKey t == k) := by
  induction l with
  | nil => simp [insertByKey, ha]
  | cons b m ih =>
    by_cases hab : sortKey a ≤ sortKey b
    · simp only [insertByKey, if_pos hab]
      simp [List.filter_cons, ha]
    · have hbk : ¬ (sortKey b = k) := by
        intro hk
        exact hab (by rw [ha, ← hk])
      simp only [insertByKey, if_neg hab]
      simp [List.filter_cons, beq_iff_eq, hbk, ih]

theorem insertByKey_filter_ne (a : Task) (l : List Task) (k : Nat)
    (ha : ¬ (sortKey a = k)) :
    (insertByKey a l).filter (fun t => sortKey t == k) =
      l.filter (fun t => sortKey t == k) := by
  induction l with
  | nil => simp [insertByKey, beq_iff_eq, ha]
  | cons b m ih =>
    by_cases hab : sortKey a ≤ sortKey b
    · simp only [insertByKey, if_pos hab]
      simp [List.filter_cons, beq_iff_eq, ha]
    · simp only [insertByKey, if_neg hab]
      simp [List.filter_cons, ih]

theorem sortByKey_filter_stable (l : List Task) (k : Nat) :
    (sortByKey l).filter (fun t => sortKey t == k) =
      l.filter (fun t => sortKey t == k) := by
  induction l with
  | nil => rfl
  | cons a m ih =>
    simp only [sortByKey]
    by_cases ha : sortKey a = k
    · rw [insertByKey_filter_eq a (sortByKey m) k ha, ih]
      simp [List.filter_cons, ha]
    · rw [insertByKey_filter_ne a (sortByKey m) k ha, ih]
      simp [List.filter_cons, beq_iff_eq, ha]

theorem priorityRank_le_two (p : String) : priorityRank p ≤ 2 := by
  by_cases h1 : p = "High" <;> by_cases h2 : p = "Medium" <;>
    by_cases h3 : p = "Low" <;> simp [priorityRank, h1, h2, h3]

theorem sortKey_le_completed {a b : Task} (h : sortKey a ≤ sortKey b)
    (hc : a.completed = true) : b.completed = true := by
  by_contra hb
  have hb2 : b.completed = false := by
    cases hbc : b.completed
    · rfl
    · exact absurd hbc hb
  have h1 : sortKey a = 3 + priorityRank a.priority := by simp [sortKey, hc]
  have h2 : sortKey b = priorityRank b.priority := by simp [sortKey, hb2]
  have h3 := priorityRank_le_two b.priority
  omega

theorem sortKey_le_rank {a b : Task} (h : sortKey a ≤ sortKey b)
    (hc : a.completed = b.completed) :
    priorityRank a.priority ≤ priorityRank b.priority := by
  cases hac : a.completed
  · have hbc : b.completed = false := by rw [← hc, hac]
    have h1 : sortKey a = priorityRank a.priority := by simp [sortKey, hac]
    have h2 : sortKey b = priorityRank b.priority := by simp [sortKey, hbc]
    omega
  · have hbc : b.completed = true := by rw [← hc, hac]
    have h1 : sortKey a = 3 + priorityRank a.priority := by simp [sortKey, hac]
    have h2 : sortKey b = 3 + priorityRank b.priority := by simp [sortKey, hbc]
    omega

/-- C3: the view built in `main` keeps exactly the tasks passing the three
filters (as a permutation of the filtered list), orders every incomplete
task before every completed one, orders each completion group by priority
rank (`High` ↦ 0, `Medium` ↦ 1, `Low` ↦ 2, so High before Medium before
Low), and is stable: for every value of the sort key, the tasks with that
key appear in their original (insertion) order. -/
theorem C3_filteredSorted_spec (show_completed : Bool)
    (filter_priority filter_category : List String) (todos : List Task) :
    (filteredSorted show_completed filter_priority filter_category
        todos).Perm
      (todos.filter
        (passesFilters show_completed filter_priority filter_category)) ∧
    (filteredSorted show_completed filter_priority filter_category
        todos).Pairwise
      (fun a b => a.completed = true → b.completed = true) ∧
    (filteredSorted show_completed filter_priority filter_category
        todos).Pairwise
      (fun a b => a.completed = b.completed →
        priorityRank a.priority ≤ priorityRank b.priority) ∧
    ∀ k : Nat,
      (filteredSorted show_completed filter_priority filter_category
          todos).filter (fun t => sortKey t == k) =
        (todos.filter
            (passesFilters show_completed filter_priority
              filter_category)).filter (fun t => sortKey t == k) := by
  unfold filteredSorted
  refine ⟨sortByKey_perm _, ?_, ?_, fun k => sortByKey_filter_stable _ k⟩
  · exact (sortByKey_pairwise _).imp
      (fun hab => fun hc => sortKey_le_completed hab hc)
  · exact (sortByKey_pairwise _).imp
      (fun hab => fun hc => sortKey_le_rank hab hc)

/-! ### Category-count dict lemmas -/

theorem ccGet_ccSet_self (cc : List (String × Nat)) (c : String) (n : Nat) :
    ccGet (ccSet cc c n) c = n := by
  induction cc with
  | nil => simp [ccSet, ccGet]
  | cons kv cc ih =>
    by_cases hk : kv.1 = c
    · simp [ccSet, ccGet, hk]
    · simp [ccSet, ccGet, hk, ih]

theorem ccGet_ccSet_ne (cc : List (String × Nat)) (c x : String) (n : Nat)
    (hx : x ≠ c) : ccGet (ccSet cc c n) x = ccGet cc x := by
  induction cc with
  | nil => simp [ccSet, ccGet, Ne.symm hx]
  | cons kv cc ih =>
    by_cases hk : kv.1 = c
    · simp [ccSet, ccGet, hk, Ne.symm hx]
    · simp [ccSet, ccGet, hk, ih]

theorem mem_keys_ccSet (cc : List (String × Nat)) (c : String) (n : Nat)
    (x : String) :
    x ∈ (ccSet cc c n).map Prod.fst ↔ x ∈ cc.map Prod.fst ∨ x = c := by
  induction cc with
  | nil => simp [ccSet]
  | cons kv cc ih =>
    by_cases hk : kv.1 = c
    · rw [show ccSet (kv :: cc) c n = (c, n) :: cc from by simp [ccSet, hk]]
      simp only [List.map_cons, List.mem_cons, hk]
      tauto
    · rw [show ccSet (kv :: cc) c n = kv :: ccSet cc c n from by
        simp [ccSet, hk]]
      simp only [List.map_cons, List.mem_cons, ih]
      tauto

theorem nodup_keys_ccSet (cc : List (String × Nat)) (c : String) (n : Nat)
    (h : (cc.map Prod.fst).Nodup) : ((ccSet cc c n).map Prod.fst).Nodup := by
  induction cc with
  | nil => simp [ccSet]
  | cons kv cc ih =>
    have h1 : kv.1 ∉ cc.map Prod.fst := (List.nodup_cons.mp h).1
    have h2 := (List.nodup_cons.mp h).2
    by_cases hk : kv.1 = c
    · rw [show ccSet (kv :: cc) c n = (c, n) :: cc from by simp [ccSet, hk],
        List.map_cons]
      exact List.nodup_cons.mpr ⟨hk ▸ h1, h2⟩
    · rw [show ccSet (kv :: cc) c n = kv :: ccSet cc c n from by
        simp [ccSet, hk], List.map_cons]
      refine List.nodup_cons.mpr ⟨?_, ih h2⟩
      rw [mem_keys_ccSet]
      rintro (hx | hx)
      · exact h1 hx
      · exact hk hx

theorem ccGet_eq_of_mem (cc : List (String × Nat)) (c : String) (n : Nat)
    (hnd : (cc.map Prod.fst).Nodup) (hmem : (c, n) ∈ cc) : ccGet cc c = n := by
  induction cc with
  | nil => cases hmem
  | cons kv cc ih =>
    have h1 : kv.1 ∉ cc.map Prod.fst := (List.nodup_cons.mp hnd).1
    rcases List.mem_cons.mp hmem with rfl | hmem2
    · simp [ccGet]
    · by_cases hk : kv.1 = c
      · exfalso
        apply h1
        rw [hk]
        exact List.mem_map_of_mem Prod.fst hmem2
      · simp only [ccGet, if_neg hk]
        exact ih (List.nodup_cons.mp hnd).2 hmem2

/-! ### `get_stats` loop lemmas -/

theorem pcIncr_eq (pc : PriorityCounts) (p : String) (pc2 : PriorityCounts)
    (h : pcIncr pc p = some pc2) :
    pc2.high = pc.high + (if p = "High" then 1 else 0) ∧
    pc2.medium = pc.medium + (if p = "Medium" then 1 else 0) ∧
    pc2.low = pc.low + (if p = "Low" then 1 else 0) := by
  by_cases h1 : p = "High"
  · subst h1
    unfold pcIncr at h
    rw [if_pos rfl] at h
    obtain rfl := (Option.some.inj h).symm
    refine ⟨by rw [if_pos rfl], ?_, ?_⟩ <;> rw [if_neg (by decide)] <;> simp
  · by_cases h2 : p = "Medium"
    · subst h2
      unfold pcIncr at h
      rw [if_neg (by decide), if_pos rfl] at h
      obtain rfl := (Option.some.inj h).symm
      refine ⟨?_, by rw [if_pos rfl], ?_⟩ <;> rw [if_neg (by decide)] <;> simp
    · by_cases h3 : p = "Low"
      · subst h3
        unfold pcIncr at h
        rw [if_neg (by decide), if_neg (by decide), if_pos rfl] at h
        obtain rfl := (Option.some.inj h).symm
        refine ⟨?_, ?_, by rw [if_pos rfl]⟩ <;> rw [if_neg (by decide)] <;>
          simp
      · exfalso
        unfold pcIncr at h
        rw [if_neg h1, if_neg h2, if_neg h3] at h
        cases h

theorem statsFold_total (ts : List Task) :
    ∀ pc cc,
    (∀ t ∈ ts, t.completed = false →
      t.priority = "High" ∨ t.priority = "Medium" ∨ t.priority = "Low") →
    ∃ r, statsFold ts pc cc = some r := by
  induction ts with
  | nil =>
    intro pc cc _
    exact ⟨(pc, cc), rfl⟩
  | cons t ts ih =>
    intro pc cc h
    have hts : ∀ u ∈ ts, u.completed = false →
        u.priority = "High" ∨ u.priority = "Medium" ∨ u.priority = "Low" :=
      fun u hu => h u (List.mem_cons_of_mem t hu)
    cases hcb : t.completed with
    | true =>
      rcases ih pc cc hts with ⟨r, hr⟩
      exact ⟨r, by simp [statsFold, hcb, hr]⟩
    | false =>
      rcases h t (List.mem_cons_self _ _) hcb with hp | hp | hp
      · rcases ih { pc with high := pc.high + 1 } (ccIncr cc t.category) hts
          with ⟨r, hr⟩
        exact ⟨r, by simp [statsFold, hcb, pcIncr, hp, hr]⟩
      · rcases ih { pc with medium := pc.medium + 1 } (ccIncr cc t.category)
          hts with ⟨r, hr⟩
        exact ⟨r, by simp [statsFold, hcb, pcIncr, hp, hr]⟩
      · rcases ih { pc with low := pc.low + 1 } (ccIncr cc t.category) hts
          with ⟨r, hr⟩
        exact ⟨r, by simp [statsFold, hcb, pcIncr, hp, hr]⟩

theorem statsFold_pc (ts : List Task) :
    ∀ pc cc pc2 cc2, statsFold ts pc cc = some (pc2, cc2) →
    pc2.high = pc.high +
      ts.countP (fun t => !t.completed && t.priority == "High") ∧
    pc2.medium = pc.medium +
      ts.countP (fun t => !t.completed && t.priority == "Medium") ∧
    pc2.low = pc.low +
      ts.countP (fun t => !t.completed && t.priority == "Low") := by
  induction ts with
  | nil =>
    intro pc cc pc2 cc2 h
    simp [statsFold] at h
    rcases h with ⟨rfl, rfl⟩
    simp
  | cons t ts ih =>
    intro pc cc pc2 cc2 h
    cases hcb : t.completed with
    | true =>
      simp only [statsFold, hcb, if_pos rfl] at h
      rcases ih pc cc pc2 cc2 h with ⟨hh, hm, hl⟩
      refine ⟨?_, ?_, ?_⟩ <;>
        simp [List.countP_cons, hcb, hh, hm, hl]
    | false =>
      simp only [statsFold, hcb, Bool.false_eq_true, if_neg] at h
      rcases hpi : pcIncr pc t.priority with _ | pc3
      · rw [hpi] at h
        simp at h
      · rw [hpi] at h
        rcases ih pc3 (ccIncr cc t.category) pc2 cc2 h with ⟨hh, hm, hl⟩
        rcases pcIncr_eq pc t.priority pc3 hpi with ⟨ph, pm, pl⟩
        refine ⟨?_, ?_, ?_⟩
        · rw [hh, ph, List.countP_cons]
          by_cases hp : t.priority = "High" <;> simp [hcb, hp] <;> omega
        · rw [hm, pm, List.countP_cons]
          by_cases hp : t.priority = "Medium" <;> simp [hcb, hp] <;> omega
        · rw [hl, pl, List.countP_cons]
          by_cases hp : t.priority = "Low" <;> simp [hcb, hp] <;> omega

theorem statsFold_cc (ts : List Task) :
    ∀ pc cc pc2 cc2, statsFold ts pc cc = some (pc2, cc2) →
    ((cc.map Prod.fst).Nodup → (cc2.map Prod.fst).Nodup) ∧
    (∀ c, c ∈ cc2.map Prod.fst ↔
      (c ∈ cc.map Prod.fst ∨
        0 < ts.countP (fun t => !t.completed && t.category == c))) ∧
    (∀ c, ccGet cc2 c = ccGet cc c +
      ts.countP (fun t => !t.completed && t.category == c)) := by
  induction ts with
  | nil =>
    intro pc cc pc2 cc2 h
    simp [statsFold] at h
    rcases h with ⟨rfl, rfl⟩
    exact ⟨id, by simp, by simp⟩
  | cons t ts ih =>
    intro pc cc pc2 cc2 h
    cases hcb : t.completed with
    | true =>
      simp only [statsFold, hcb, if_pos rfl] at h
      rcases ih pc cc pc2 cc2 h with ⟨hnd, hmem, hget⟩
      refine ⟨hnd, ?_, ?_⟩ <;> intro c <;>
        simp [List.countP_cons, hcb, hmem c, hget c]
    | false =>
      simp only [statsFold, hcb, Bool.false_eq_true, if_neg] at h
      rcases hpi : pcIncr pc t.priority with _ | pc3
      · rw [hpi] at h
        simp at h
      · rw [hpi] at h
        rcases ih pc3 (ccIncr cc t.category) pc2 cc2 h with ⟨hnd, hmem, hget⟩
        refine ⟨?_, ?_, ?_⟩
        · intro hnd0
          exact hnd (nodup_keys_ccSet cc t.category _ hnd0)
        · intro c
          rw [hmem c]
          have hkeys : c ∈ (ccIncr cc t.category).map Prod.fst ↔
              c ∈ cc.map Prod.fst ∨ c = t.category :=
            mem_keys_ccSet cc t.category _ c
          rw [hkeys]
          by_cases hcc : t.category = c
          · simp [List.countP_cons, hcb, hcc]
          · have hcc2 : ¬ (c = t.category) := fun h0 => hcc h0.symm
            simp only [List.countP_cons, hcb]
            simp [hcc, hcc2]
        · intro c
          rw [hget c]
          by_cases hcc : t.category = c
          · subst hcc
            rw [show ccIncr cc t.category = ccSet cc t.category
                (ccGet cc t.category + 1) from rfl,
              ccGet_ccSet_self, List.countP_cons]
            simp [hcb]
            omega
          · rw [show ccIncr cc t.category = ccSet cc t.category
                (ccGet cc t.category + 1) from rfl,
              ccGet_ccSet_ne cc t.category c _ (fun hx => hcc hx.symm),
              List.countP_cons]
            simp [hcb, hcc]

/-- The spec's calibration store: 2 High pending, 1 Medium pending,
1 Low completed. -/
def demoTodos : List Task :=
  [⟨1, "a", false, "High", "Work", "t0", none, none⟩,
   ⟨2, "b", false, "High", "Personal", "t0", none, none⟩,
   ⟨3, "c", false, "Medium", "Work", "t0", none, none⟩,
   ⟨4, "d", true, "Low", "Personal", "t0", none, some "t1"⟩]

/-- A pending task whose priority is outside the {High, Medium, Low} enum,
as could be loaded from a hand-edited file. -/
def badTask : Task := ⟨1, "a", false, "Urgent", "Work", "t0", none, none⟩

/-- C6: on a store whose pending tasks all have an enum priority,
`get_stats` returns: total = number of tasks, completed = number of
completed tasks, pending = total − completed, the zero-filled
High/Medium/Low pending counts (the dict's keys are exactly those three by
construction of `PriorityCounts`), and a category dict whose keys are
exactly the categories with at least one pending task, each mapped to its
pending count. -/
theorem C6_stats (todos : List Task)
    (h : ∀ t ∈ todos, t.completed = false →
      t.priority = "High" ∨ t.priority = "Medium" ∨ t.priority = "Low") :
    ∃ s, getStats todos = some s ∧
      s.total = todos.length ∧
      s.completed = todos.countP (fun t => t.completed) ∧
      s.pending = todos.length - todos.countP (fun t => t.completed) ∧
      s.priority_counts.high =
        todos.countP (fun t => !t.completed && t.priority == "High") ∧
      s.priority_counts.medium =
        todos.countP (fun t => !t.completed && t.priority == "Medium") ∧
      s.priority_counts.low =
        todos.countP (fun t => !t.completed && t.priority == "Low") ∧
      (s.category_counts.map Prod.fst).Nodup ∧
      (∀ c, c ∈ s.category_counts.map Prod.fst ↔
        0 < todos.countP (fun t => !t.completed && t.category == c)) ∧
      (∀ c n, (c, n) ∈ s.category_counts →
        n = todos.countP (fun t => !t.completed && t.category == c)) := by
  rcases statsFold_total todos ⟨0, 0, 0⟩ [] h with ⟨⟨pc2, cc2⟩, hr⟩
  rcases statsFold_pc todos ⟨0, 0, 0⟩ [] pc2 cc2 hr with ⟨hh, hm, hl⟩
  rcases statsFold_cc todos ⟨0, 0, 0⟩ [] pc2 cc2 hr with ⟨hnd, hmem, hget⟩
  have hnd2 : (cc2.map Prod.fst).Nodup := hnd (by simp)
  refine ⟨⟨todos.length, (todos.filter (fun t => t.completed)).length,
      todos.length - (todos.filter (fun t => t.completed)).length, pc2, cc2⟩,
    ?_, rfl, ?_, ?_, ?_, ?_, ?_, hnd2, ?_, ?_⟩
  · simp [getStats, hr]
  · exact (List.countP_eq_length_filter _ _).symm
  · rw [List.countP_eq_length_filter]
  · simpa using hh
  · simpa using hm
  · simpa using hl
  · intro c
    rw [hmem c]
    simp
  · intro c n hcn
    have hg := ccGet_eq_of_mem cc2 c n hnd2 hcn
    rw [← hg, hget c]
    simp [ccGet]

/-- C6 witness: the theorem applied to the spec's calibration store. -/
theorem C6_stats_witness :
    (∀ t ∈ demoTodos, t.completed = false →
      t.priority = "High" ∨ t.priority = "Medium" ∨ t.priority = "Low") ∧
    (∃ s, getStats demoTodos = some s ∧
      s.total = demoTodos.length ∧
      s.completed = demoTodos.countP (fun t => t.completed) ∧
      s.pending = demoTodos.length - demoTodos.countP (fun t => t.completed) ∧
      s.priority_counts.high =
        demoTodos.countP (fun t => !t.completed && t.priority == "High") ∧
      s.priority_counts.medium =
        demoTodos.countP (fun t => !t.completed && t.priority == "Medium") ∧
      s.priority_counts.low =
        demoTodos.countP (fun t => !t.completed && t.priority == "Low") ∧
      (s.category_counts.map Prod.fst).Nodup ∧
      (∀ c, c ∈ s.category_counts.map Prod.fst ↔
        0 < demoTodos.countP (fun t => !t.completed && t.category == c)) ∧
      (∀ c n, (c, n) ∈ s.category_counts →
        n = demoTodos.countP (fun t => !t.completed && t.category == c))) :=
  ⟨by decide, C6_stats demoTodos (by decide)⟩

/-- If some pending task's priority is outside the enum, the stats loop
raises (returns `none`), whatever the accumulators are. -/
theorem statsFold_none_of_bad (ts : List Task) :
    ∀ (pc : PriorityCounts) (cc : List (String × Nat)) (t : Task),
    t ∈ ts → t.completed = false →
    ¬(t.priority = "High") → ¬(t.priority = "Medium") → ¬(t.priority = "Low") →
    statsFold ts pc cc = none := by
  induction ts with
  | nil =>
    intro pc cc t ht
    cases ht
  | cons a ts ih =>
    intro pc cc t ht hf h1 h2 h3
    rcases List.mem_cons.mp ht with rfl | ht2
    · have hpi : pcIncr pc t.priority = none := by
        unfold pcIncr
        rw [if_neg h1, if_neg h2, if_neg h3]
      simp [statsFold, hf, hpi]
    · cases hcb : a.completed with
      | true => simp [statsFold, hcb, ih pc cc t ht2 hf h1 h2 h3]
      | false =>
        rcases hpi : pcIncr pc a.priority with _ | pc3
        · simp [statsFold, hcb, hpi]
        · simp [statsFold, hcb, hpi,
            ih pc3 (ccIncr cc a.category) t ht2 hf h1 h2 h3]

/-- C10: `get_stats` is total exactly under the unstated precondition that
every pending task's priority is one of High/Medium/Low: under it the
`KeyError` branch is unreachable and stats are returned; and any single
pending task with a priority outside the enum makes the lookup fail. -/
theorem C10_stats_totality (todos : List Task) :
    ((∀ t ∈ todos, t.completed = false →
        t.priority = "High" ∨ t.priority = "Medium" ∨ t.priority = "Low") →
      (getStats todos).isSome) ∧
    (∀ t ∈ todos, t.completed = false →
      t.priority ≠ "High" → t.priority ≠ "Medium" → t.priority ≠ "Low" →
      getStats todos = none) := by
  constructor
  · intro h
    rcases statsFold_total todos ⟨0, 0, 0⟩ [] h with ⟨⟨pc2, cc2⟩, hr⟩
    simp [getStats, hr]
  · intro t ht hf h1 h2 h3
    simp [getStats, statsFold_none_of_bad todos ⟨0, 0, 0⟩ [] t ht hf h1 h2 h3]

/-- C10 witness: stats succeed on a store with enum priorities and fail on
a store holding a pending task with priority `Urgent`. -/
theorem C10_stats_totality_witness :
    ((∀ t ∈ [sampleTask], t.completed = false →
        t.priority = "High" ∨ t.priority = "Medium" ∨ t.priority = "Low") ∧
      (getStats [sampleTask]).isSome) ∧
    (badTask ∈ [badTask] ∧ badTask.completed = false ∧
      badTask.priority ≠ "High" ∧ badTask.priority ≠ "Medium" ∧
      badTask.priority ≠ "Low" ∧ getStats [badTask] = none) :=
  ⟨⟨by decide, (C10_stats_totality [sampleTask]).1 (by decide)⟩,
   ⟨List.mem_cons_self _ _, rfl, by decide, by decide, by decide,
     (C10_stats_totality [badTask]).2 badTask (List.mem_cons_self _ _) rfl
       (by decide) (by decide) (by decide)⟩⟩

/-! ### Persistence round-trip -/

theorem decodeTask_encodeTask (t : Task) : decodeTask (encodeTask t) = some t := by
  rcases t with ⟨i, d, cb, p, c, ca, dd, cmpl⟩
  cases dd <;> cases cmpl <;> rfl

theorem decodeTasks_encode (ts : List Task) :
    decodeTasks (ts.map encodeTask) = some ts := by
  induction ts with
  | nil => rfl
  | cons t ts ih => simp [decodeTasks, decodeTask_encodeTask, ih]

/-- C7: saving a collection overwrites the file with its serialization, and
loading that file back yields exactly that value, with no warning; the
serialization is lossless — decoding it recovers the same task records
field-for-field and in the same order (the empty collection included, as
the `todos = []` instance). -/
theorem C7_save_load_roundtrip (todos : List Task) :
    loadTodos (saveTodos todos) = some (encodeTodos todos, false) ∧
    decodeTodos (encodeTodos todos) = some todos := by
  refine ⟨rfl, ?_⟩
  simp [decodeTodos, encodeTodos, decodeTasks_encode]

/-- C8 (code bug): `load_todos` does NOT handle every malformed file.
A missing file yields the empty collection and the caught exception
classes (`json.JSONDecodeError`, `IOError`) yield a warning and the empty
collection as claimed — but a backing file whose bytes are not valid UTF-8
makes `f.read()` inside `json.load` raise `UnicodeDecodeError`, which the
`except (json.JSONDecodeError, IOError)` clause at line 34 does not catch,
so the exception escapes `load_todos` (modelled as `none`): the function
crashes instead of warning and proceeding with an empty collection. -/
theorem C8_load_crashes_on_undecodable :
    loadTodos FileState.undecodable = none ∧
    loadTodos FileState.missing = some (Json.arr [], false) ∧
    loadTodos FileState.malformed = some (Json.arr [], true) :=
  ⟨rfl, rfl, rfl⟩

end TodoApp
